import Mathlib

/-
Verification development for the pdf-form-fill adapter (src/index.js).

The JavaScript source is shallowly embedded:
* the field-metadata text parsing inside `fields` becomes the pure function
  `parseFields`;
* JavaScript objects used as string-keyed records become insertion-ordered
  association lists (`alSet` updates the first matching key in place and
  otherwise appends, exactly like JS property assignment; `alGet` is property
  lookup);
* values stored in a field record are either strings or arrays of strings
  (`JsVal`), since the parser stores `data[key] = value` strings and a
  `data.options` array in the same object;
* the asynchronous control flow of `fields` and `fill` becomes a function from
  an environment (the results of the filesystem and child-process interactions)
  to a trace of external effects (`Event` list) plus a settled `Outcome`;
* the in-place mutation that `pdfInfo` performs on the caller's `options.info`
  object becomes explicit state passing: `pdfInfoRecord` is the post-state of
  the record and `fill` reports it in `FillResult.infoPost`.
-/

namespace PdfFormFill

/-- A value stored in a parsed field record: the parser writes plain strings
(`data[key.toLowerCase()] = value`) and an array of strings (`data.options`)
into the same JavaScript object. -/
inductive JsVal where
  | str (s : String)
  | arr (xs : List String)
deriving DecidableEq, Repr

/-- Insertion-ordered string-keyed record, the embedding of a JS object.
Assignment (`alSet`) overwrites the first entry with the key, keeping its
position, and otherwise appends; this is JS property-assignment semantics. -/
def alSet {α : Type} : List (String × α) → String → α → List (String × α)
  | [], k, v => [(k, v)]
  | (k0, v0) :: r, k, v => if k0 = k then (k, v) :: r else (k0, v0) :: alSet r k v

/-- Property lookup on a string-keyed record. -/
def alGet {α : Type} : List (String × α) → String → Option α
  | [], _ => none
  | (k0, v0) :: r, k => if k0 = k then some v0 else alGet r k

theorem alGet_alSet_self {α : Type} (r : List (String × α)) (k : String) (v : α) :
    alGet (alSet r k v) k = some v := by
  induction r with
  | nil => simp [alSet, alGet]
  | cons p r ih =>
    obtain ⟨k0, v0⟩ := p
    by_cases h : k0 = k <;> simp [alSet, alGet, h, ih]

theorem alGet_alSet_ne {α : Type} (r : List (String × α)) (k k' : String) (v : α)
    (h : k' ≠ k) : alGet (alSet r k v) k' = alGet r k' := by
  induction r with
  | nil => simp [alSet, alGet, Ne.symm h]
  | cons p r ih =>
    obtain ⟨k0, v0⟩ := p
    by_cases h0 : k0 = k
    · subst h0
      simp [alSet, alGet, Ne.symm h]
    · by_cases h1 : k0 = k' <;> simp [alSet, alGet, h0, h1, h, ih]

/-- A parsed field record. -/
abbrev Record := List (String × JsVal)

/-- ASCII letter test: what `[a-z]+` with the `i` flag matches (the regex has
no `u` flag, so case-insensitive canonicalisation stays within ASCII). -/
def isAsciiAlpha (c : Char) : Bool :=
  (decide (97 ≤ c.toNat) && decide (c.toNat ≤ 122)) ||
  (decide (65 ≤ c.toNat) && decide (c.toNat ≤ 90))

/-- ASCII lower-casing of one character. -/
def toLowerAscii (c : Char) : Char :=
  if 65 ≤ c.toNat ∧ c.toNat ≤ 90 then Char.ofNat (c.toNat + 32) else c

/-- Lower-casing of a string.  It is applied only to captured attribute names,
which consist of ASCII letters, where JS `String.prototype.toLowerCase`
coincides with per-character ASCII lower-casing. -/
def lowerStr (s : String) : String :=
  String.mk (s.data.map toLowerAscii)

/-- JS line terminators: the positions after which the `m`-flag `^` anchor
matches and at which `.` stops. -/
def isLineTerm (c : Char) : Bool :=
  c = Char.ofNat 10 || c = Char.ofNat 13 || c = Char.ofNat 0x2028 || c = Char.ofNat 0x2029

/-- `output.split('---')`: split on each non-overlapping occurrence of three
dashes, scanning left to right.  `acc` holds the current piece reversed. -/
def splitDash (acc : List Char) (cs : List Char) : List (List Char) :=
  match cs with
  | '-' :: '-' :: '-' :: rest => acc.reverse :: splitDash [] rest
  | c :: rest => splitDash (c :: acc) rest
  | [] => [acc.reverse]

/-- The maximal terminator-free runs of a block: the lines that the
`m`-flagged, `g`-flagged regex scan effectively visits. -/
def splitLines (acc : List Char) (cs : List Char) : List (List Char) :=
  match cs with
  | [] => [acc.reverse]
  | c :: rest =>
    if isLineTerm c then acc.reverse :: splitLines [] rest
    else splitLines (c :: acc) rest

/-- One line matched against `/^Field([a-z]+): (.*)/i`: a case-insensitive
`Field` prefix, a non-empty captured run of ASCII letters kept in its original
case, then `": "`, then the rest of the line as the captured value. -/
def matchLine (cs : List Char) : Option (String × String) :=
  let p := cs.take 5
  let rest := cs.drop 5
  if p.length = 5 ∧ p.map toLowerAscii = "field".data then
    let key := rest.takeWhile isAsciiAlpha
    let rest2 := rest.dropWhile isAsciiAlpha
    if key ≠ [] ∧ rest2.take 2 = [':', ' '] then
      some (String.mk key, String.mk (rest2.drop 2))
    else none
  else none

/-- One step of the parser's `switch (key)` on a matched line.  The case
labels `'Name'` and `'StateOption'` compare the captured key exactly (case
sensitively).  `StateOption` mirrors `if (!data.options) data.options =
[value]; else data.options.push(value)`: pushing onto a truthy non-array value
throws a `TypeError` in JS, embedded as `Except.error`. -/
def lineStep (acc : Record × List String) (line : List Char) :
    Except String (Record × List String) :=
  match matchLine line with
  | none => .ok acc
  | some (key, value) =>
    if key = "Name" then .ok (acc.1, acc.2 ++ [value])
    else if key = "StateOption" then
      match alGet acc.1 "options" with
      | none => .ok (alSet acc.1 "options" (.arr [value]), acc.2)
      | some (.str s) =>
        if s = "" then .ok (alSet acc.1 "options" (.arr [value]), acc.2)
        else .error "TypeError"
      | some (.arr xs) => .ok (alSet acc.1 "options" (.arr (xs ++ [value])), acc.2)
    else .ok (alSet acc.1 (lowerStr key) (.str value), acc.2)

/-- Process one `---`-separated block: fold the matched lines over a fresh
`data` record, collecting the values of `FieldName` lines in order.  Because
`result[value] = data` stores a reference to the block's mutable `data`
object, every name collected in a block ends up mapped to the block's final
record; returning the final record together with the name list captures
exactly that. -/
def processBlock (cs : List Char) : Except String (Record × List String) :=
  (splitLines [] cs).foldlM lineStep ([], [])

/-- Store a block's final record under each of its `FieldName` values, in
encounter order (later blocks overwrite earlier entries for the same name). -/
def blockStep (r : List (String × Record)) (cs : List Char) :
    Except String (List (String × Record)) :=
  match processBlock cs with
  | .error e => .error e
  | .ok (d, names) => .ok (names.foldl (fun acc n => alSet acc n d) r)

/-- The text-protocol parsing performed in `fields` on the complete
`dump_data_fields_utf8` output. -/
def parseFields (output : String) : Except String (List (String × Record)) :=
  (splitDash [] output.data).foldlM blockStep []

/-- A field descriptor as the specification describes it: a flat mapping from
lower-cased attribute name to string, with the selectable options kept apart
as an ordered list. -/
structure SpecRecord where
  attrs : List (String × String)
  options : List String
deriving DecidableEq, Repr

/-- Routing of one matched line, written from the specification's words:
`FieldName` selects the destination record, `FieldStateOption` appends to the
ordered options list, every other attribute goes to a lower-cased key with
later occurrences overwriting earlier ones. -/
def specLineStep (acc : SpecRecord × List String) (line : List Char) :
    SpecRecord × List String :=
  match matchLine line with
  | none => acc
  | some (key, value) =>
    if key = "Name" then (acc.1, acc.2 ++ [value])
    else if key = "StateOption" then
      ({ acc.1 with options := acc.1.options ++ [value] }, acc.2)
    else ({ acc.1 with attrs := alSet acc.1.attrs (lowerStr key) value }, acc.2)

/-- Specification-level processing of one block. -/
def specBlock (cs : List Char) : SpecRecord × List String :=
  (splitLines [] cs).foldl specLineStep (⟨[], []⟩, [])

/-- Store a block's record under each of its names, specification level. -/
def specBlockApply (r : List (String × SpecRecord)) (cs : List Char) :
    List (String × SpecRecord) :=
  (specBlock cs).2.foldl (fun acc n => alSet acc n (specBlock cs).1) r

/-- The whole parse, written from the specification's words. -/
def specParse (output : String) : List (String × SpecRecord) :=
  (splitDash [] output.data).foldl specBlockApply []

/-- A matched line is harmless when it is a `FieldName` line, a
`FieldStateOption` line, or any other attribute whose lower-cased name is not
`options` (an `options`-named plain attribute overwrites the shared
`data.options` array in the code). -/
def lineOk (line : List Char) : Bool :=
  match matchLine line with
  | none => true
  | some (k, _) => k == "Name" || k == "StateOption" || !(lowerStr k == "options")

/-- No block of the input contains a plain attribute line that would collide
with the `options` key. -/
def noOptionsAttr (output : String) : Bool :=
  (splitDash [] output.data).all (fun b => (splitLines [] b).all lineOk)

/-- The options list as the code's record stores it: absent until the first
`FieldStateOption` line, an array afterwards. -/
def optsVal (xs : List String) : Option JsVal :=
  if xs = [] then none else some (.arr xs)

/-- Correspondence between a code-level record and a spec-level record. -/
def recRel (d : Record) (sr : SpecRecord) : Prop :=
  alGet d "options" = optsVal sr.options ∧
  ∀ k, k ≠ "options" → alGet d k = (alGet sr.attrs k).map JsVal.str

/-- The spec-level record never stores a plain attribute under `options`. -/
def specOk (sr : SpecRecord) : Prop :=
  alGet sr.attrs "options" = none

/-- Correspondence between optional records, used pointwise on the result. -/
def entryRel : Option Record → Option SpecRecord → Prop
  | none, none => True
  | some d, some sr => recRel d sr
  | _, _ => False

/-- Pointwise correspondence between the two result mappings. -/
def mapRel (m : List (String × Record)) (sm : List (String × SpecRecord)) : Prop :=
  ∀ n, entryRel (alGet m n) (alGet sm n)

theorem recRel_nil : recRel [] ⟨[], []⟩ := by
  constructor
  · simp [alGet, optsVal]
  · intro k _
    simp [alGet]

theorem lineStep_sim (l : List Char) (hok : lineOk l = true) (d : Record)
    (sr : SpecRecord) (names : List String) (hrel : recRel d sr)
    (hso : specOk sr) :
    ∃ d', lineStep (d, names) l = .ok (d', (specLineStep (sr, names) l).2) ∧
      recRel d' (specLineStep (sr, names) l).1 ∧
      specOk (specLineStep (sr, names) l).1 := by
  unfold lineOk at hok
  unfold lineStep specLineStep
  match hm : matchLine l with
  | none => exact ⟨d, rfl, hrel, hso⟩
  | some (key, value) =>
    rw [hm] at hok
    by_cases hname : key = "Name"
    · refine ⟨d, ?_, ?_, ?_⟩ <;> simp [hname, hrel, hso]
    · by_cases hstate : key = "StateOption"
      · subst hstate
        rcases hrel with ⟨hopt, hother⟩
        cases hxs : sr.options with
        | nil =>
          refine ⟨alSet d "options" (.arr [value]), ?_, ⟨?_, ?_⟩, ?_⟩
          · rw [hopt, hxs]
            simp [hname, optsVal]
          · simp [hname, alGet_alSet_self, hxs, optsVal]
          · intro k hk
            simp [hname, alGet_alSet_ne _ _ _ _ hk, hother k hk]
          · simpa [specOk, hname] using hso
        | cons x xs =>
          refine ⟨alSet d "options" (.arr (x :: xs ++ [value])), ?_, ⟨?_, ?_⟩, ?_⟩
          · rw [hopt, hxs]
            simp [hname, optsVal]
          · simp [hname, alGet_alSet_self, hxs, optsVal]
          · intro k hk
            simp [hname, alGet_alSet_ne _ _ _ _ hk, hother k hk]
          · simpa [specOk, hname] using hso
      · have hlow : lowerStr key ≠ "options" := by
          simp [hname, hstate] at hok
          simpa using hok
        rcases hrel with ⟨hopt, hother⟩
        refine ⟨alSet d (lowerStr key) (.str value), ?_, ⟨?_, ?_⟩, ?_⟩
        · simp [hname, hstate]
        · simp only [hname, hstate, if_false]
          rw [alGet_alSet_ne _ _ _ _ (Ne.symm hlow)]
          exact hopt
        · intro k hk
          by_cases hkk : k = lowerStr key
          · subst hkk
            simp [hname, hstate, alGet_alSet_self]
          · simp [hname, hstate, alGet_alSet_ne _ _ _ _ hkk, hother k hk]
        · simp only [hname, hstate, if_false, specOk]
          rw [alGet_alSet_ne _ _ _ _ (Ne.symm hlow)]
          exact hso

theorem foldlM_lineStep_sim (lines : List (List Char))
    (h : ∀ l ∈ lines, lineOk l = true) :
    ∀ d sr names, recRel d sr → specOk sr →
    ∃ d', lines.foldlM lineStep (d, names) =
        .ok (d', (lines.foldl specLineStep (sr, names)).2) ∧
      recRel d' (lines.foldl specLineStep (sr, names)).1 ∧
      specOk (lines.foldl specLineStep (sr, names)).1 := by
  induction lines with
  | nil =>
    intro d sr names hrel hso
    exact ⟨d, rfl, hrel, hso⟩
  | cons l ls ih =>
    intro d sr names hrel hso
    obtain ⟨d1, hstep, hrel1, hso1⟩ := lineStep_sim l (h l (by simp)) d sr names hrel hso
    obtain ⟨d', hfold, hrel', hso'⟩ :=
      ih (fun x hx => h x (by simp [hx])) d1 (specLineStep (sr, names) l).1
        (specLineStep (sr, names) l).2 hrel1 hso1
    refine ⟨d', ?_, ?_, ?_⟩
    · rw [List.foldlM_cons, hstep]
      simp only [List.foldl_cons]
      simpa [Bind.bind, Except.bind] using hfold
    · simpa using hrel'
    · simpa using hso'

theorem processBlock_sim (cs : List Char)
    (h : ∀ l ∈ splitLines [] cs, lineOk l = true) :
    ∃ d, processBlock cs = .ok (d, (specBlock cs).2) ∧
      recRel d (specBlock cs).1 ∧ specOk (specBlock cs).1 :=
  foldlM_lineStep_sim _ h [] ⟨[], []⟩ [] recRel_nil rfl

theorem mapRel_nil : mapRel [] [] := by
  intro n
  simp [entryRel, alGet]

theorem mapRel_applyNames (names : List String) (d : Record) (sr : SpecRecord)
    (hrel : recRel d sr) :
    ∀ m sm, mapRel m sm →
    mapRel (names.foldl (fun acc n => alSet acc n d) m)
      (names.foldl (fun acc n => alSet acc n sr) sm) := by
  induction names with
  | nil => intro m sm h; exact h
  | cons n ns ih =>
    intro m sm h
    simp only [List.foldl_cons]
    apply ih
    intro n'
    by_cases hn : n' = n
    · subst hn
      rw [alGet_alSet_self, alGet_alSet_self]
      exact hrel
    · rw [alGet_alSet_ne _ _ _ _ hn, alGet_alSet_ne _ _ _ _ hn]
      exact h n'

theorem blocks_sim (bs : List (List Char))
    (h : ∀ b ∈ bs, ∀ l ∈ splitLines [] b, lineOk l = true) :
    ∀ m sm, mapRel m sm →
    ∃ m', bs.foldlM blockStep m = .ok m' ∧
      mapRel m' (bs.foldl specBlockApply sm) := by
  induction bs with
  | nil => intro m sm hm; exact ⟨m, rfl, hm⟩
  | cons b bs ih =>
    intro m sm hm
    obtain ⟨d, hpb, hrel, _⟩ := processBlock_sim b (h b (by simp))
    have hstep : blockStep m b =
        .ok ((specBlock b).2.foldl (fun acc n => alSet acc n d) m) := by
      unfold blockStep
      rw [hpb]
    obtain ⟨m', hfold, hrel'⟩ :=
      ih (fun x hx => h x (by simp [hx])) _ _
        (mapRel_applyNames (specBlock b).2 d (specBlock b).1 hrel m sm hm)
    refine ⟨m', ?_, ?_⟩
    · rw [List.foldlM_cons, hstep]
      simpa [Bind.bind, Except.bind] using hfold
    · simpa [specBlockApply] using hrel'

/-- Claim C1 (amended): for every field-metadata text input in which no block
contains a plain attribute line whose lower-cased name is `options`, the
parser splits the input on `---` and routes each matching
`Field<Attribute>: <value>` line as claimed: a `FieldName` line makes its
value the key under which the block's record is stored, each
`FieldStateOption` line appends its value to the ordered options list in
input order, and every other attribute is stored under its lower-cased name
with later occurrences overwriting earlier ones within a block.  The result
corresponds pointwise, at every name, to the mapping described by the
specification-level parse. -/
theorem claim1_routing (output : String) (h : noOptionsAttr output = true) :
    ∃ m, parseFields output = .ok m ∧
      ∀ n, entryRel (alGet m n) (alGet (specParse output) n) := by
  unfold noOptionsAttr at h
  simp only [List.all_eq_true] at h
  obtain ⟨m, hfold, hrel⟩ :=
    blocks_sim (splitDash [] output.data) (fun b hb l hl => h b hb l hl) [] [] mapRel_nil
  exact ⟨m, hfold, hrel⟩

/-- Claim C1 witness: the amended routing theorem applied to a concrete
two-block input in the shape of the tool's metadata dump. -/
theorem claim1_routing_witness :
    noOptionsAttr "FieldType: Text\nFieldName: name1\n---\nFieldType: Button\nFieldName: checkbox2\nFieldStateOption: Off\nFieldStateOption: Yes" = true ∧
    (∃ m, parseFields "FieldType: Text\nFieldName: name1\n---\nFieldType: Button\nFieldName: checkbox2\nFieldStateOption: Off\nFieldStateOption: Yes" = .ok m ∧
      ∀ n, entryRel (alGet m n)
        (alGet (specParse "FieldType: Text\nFieldName: name1\n---\nFieldType: Button\nFieldName: checkbox2\nFieldStateOption: Off\nFieldStateOption: Yes") n)) :=
  ⟨by decide, claim1_routing _ (by decide)⟩

/-- Claim C1 counterexample: on a block whose `FieldOptions` attribute line
stores the plain string `x` under the `options` key, a later
`FieldStateOption` line makes the code call `push` on a string, a `TypeError`;
the parse therefore produces no mapping at all (the promise never resolves),
instead of appending `y` to an options list on the record named `n` as the
claim states. -/
theorem claim1_counterexample :
    parseFields "FieldName: n\nFieldOptions: x\nFieldStateOption: y" = .error "TypeError" := by
  rfl

theorem splitDash_of_noDash (cs : List Char) (h : ∀ c ∈ cs, ¬(c = '-')) :
    ∀ acc, splitDash acc cs = [acc.reverse ++ cs] := by
  induction cs with
  | nil => intro acc; simp [splitDash]
  | cons c rest ih =>
    intro acc
    have hc : ¬(c = '-') := h c (by simp)
    rw [splitDash.eq_def]
    split
    · rename_i heq
      rw [List.cons.injEq] at heq
      exact absurd heq.1 hc
    · rename_i c0 cs0 hnot heq
      rw [List.cons.injEq] at heq
      obtain ⟨h1, h2⟩ := heq
      subst h1
      subst h2
      rw [ih (fun x hx => h x (by simp [hx])) (c :: acc)]
      simp
    · rename_i heq
      simp at heq

theorem splitLines_of_clean (cs : List Char) (h : ∀ c ∈ cs, isLineTerm c = false) :
    ∀ acc, splitLines acc cs = [acc.reverse ++ cs] := by
  induction cs with
  | nil => intro acc; simp [splitLines]
  | cons c rest ih =>
    intro acc
    rw [splitLines]
    rw [h c (by simp)]
    simp only [Bool.false_eq_true, if_false]
    rw [ih (fun x hx => h x (by simp [hx])) (c :: acc)]
    simp

theorem splitLines_append_nl (l1 : List Char) (h1 : ∀ c ∈ l1, isLineTerm c = false)
    (l2 : List Char) :
    ∀ acc, splitLines acc (l1 ++ '\n' :: l2) = (acc.reverse ++ l1) :: splitLines [] l2 := by
  induction l1 with
  | nil =>
    intro acc
    rw [List.nil_append, splitLines]
    have : isLineTerm '\n' = true := by decide
    rw [this]
    simp
  | cons c rest ih =>
    intro acc
    rw [List.cons_append, splitLines]
    rw [h1 c (by simp)]
    simp only [Bool.false_eq_true, if_false]
    rw [ih (fun x hx => h1 x (by simp [hx])) (c :: acc)]
    simp

theorem takeWhile_middle (p : Char → Bool) (l1 : List Char) (c0 : Char) (l2 : List Char)
    (h1 : ∀ c ∈ l1, p c = true) (h0 : p c0 = false) :
    (l1 ++ c0 :: l2).takeWhile p = l1 ∧ (l1 ++ c0 :: l2).dropWhile p = c0 :: l2 := by
  induction l1 with
  | nil => simp [List.takeWhile_cons, List.dropWhile_cons, h0]
  | cons a l ih =>
    have ha := h1 a (by simp)
    obtain ⟨iht, ihd⟩ := ih (fun c hc => h1 c (by simp [hc]))
    simp [List.takeWhile_cons, List.dropWhile_cons, ha, iht, ihd]

theorem matchLine_eq (p k v : List Char) (hp : p.map toLowerAscii = "field".data)
    (hk : ∀ c ∈ k, isAsciiAlpha c = true) (hk0 : k ≠ []) :
    matchLine (p ++ (k ++ ':' :: ' ' :: v)) = some (String.mk k, String.mk v) := by
  have hp5 : p.length = 5 := by
    have := congrArg List.length hp
    simpa using this
  have hcolon : isAsciiAlpha ':' = false := by decide
  obtain ⟨htw, hdw⟩ := takeWhile_middle isAsciiAlpha k ':' (' ' :: v) hk hcolon
  unfold matchLine
  simp only [← hp5, List.take_left, List.drop_left]
  rw [htw, hdw]
  simp [hp, hp5, hk0]

/-- Claim C7 (amended): attribute lines are matched case-insensitively against
the `Field<Attribute>: <value>` pattern (any casing of the `Field` prefix
matches, and the attribute name may be letters of either case), but the
routing of the captured attribute name is case sensitive: only a key exactly
equal to `Name` selects the destination record and only exactly `StateOption`
appends to the options list; any other casing (e.g. `FieldNAME`) falls
through to the default rule and is stored under its lower-cased name. -/
theorem claim7_case_rules :
    (∀ (p k v : List Char), p.map toLowerAscii = "field".data →
      (∀ c ∈ k, isAsciiAlpha c = true) → k ≠ [] →
      matchLine (p ++ (k ++ ':' :: ' ' :: v)) = some (String.mk k, String.mk v)) ∧
    (∀ (l : List Char) (key value : String) (d : Record) (names : List String),
      matchLine l = some (key, value) → key ≠ "Name" → key ≠ "StateOption" →
      lineStep (d, names) l = .ok (alSet d (lowerStr key) (.str value), names)) ∧
    (∀ (l : List Char) (value : String) (d : Record) (names : List String),
      matchLine l = some ("Name", value) →
      lineStep (d, names) l = .ok (d, names ++ [value])) ∧
    (∀ (l : List Char) (value : String) (d : Record) (names : List String),
      matchLine l = some ("StateOption", value) → alGet d "options" = none →
      lineStep (d, names) l = .ok (alSet d "options" (.arr [value]), names)) := by
  refine ⟨matchLine_eq, ?_, ?_, ?_⟩
  · intro l key value d names hm hname hstate
    unfold lineStep
    rw [hm]
    simp [hname, hstate]
  · intro l value d names hm
    unfold lineStep
    rw [hm]
    simp
  · intro l value d names hm hopt
    unfold lineStep
    rw [hm, hopt]
    simp

/-- Claim C7 witness: the amended theorem applied to concrete lines, showing
an upper-case prefix still matching, `FieldFLAGS` routed to the attribute
`flags`, and the exact-case `FieldName` / `FieldStateOption` routings. -/
theorem claim7_case_rules_witness :
    matchLine ("FIELD".data ++ ("Flags".data ++ ':' :: ' ' :: "2".data)) =
      some ("Flags", "2") ∧
    lineStep ([], []) "FieldFLAGS: 2".data = .ok ([("flags", JsVal.str "2")], []) ∧
    lineStep ([], []) "FieldName: n".data = .ok ([], ["n"]) ∧
    lineStep ([], []) "FieldStateOption: Off".data = .ok ([("options", JsVal.arr ["Off"])], []) :=
  ⟨claim7_case_rules.1 "FIELD".data "Flags".data "2".data (by decide) (by decide) (by decide),
   claim7_case_rules.2.1 "FieldFLAGS: 2".data "FLAGS" "2" [] [] rfl (by decide) (by decide),
   claim7_case_rules.2.2.1 "FieldName: n".data "n" [] [] rfl,
   claim7_case_rules.2.2.2 "FieldStateOption: Off".data "Off" [] [] rfl rfl⟩

/-- Claim C7 counterexample: the claim as stated says a line whose attribute
name equals `Name` up to case selects the destination record, so
`FieldNAME: x` would store the block's record under the key `x`.  The code's
`switch` compares the captured key case-sensitively: the input below yields a
mapping whose only key is `n`, with `x` stored as the plain attribute `name`,
and no record at all under the key `x`. -/
theorem claim7_counterexample :
    parseFields "FieldNAME: x\nFieldName: n" = .ok [("n", [("name", JsVal.str "x")])] ∧
    alGet [("n", [("name", JsVal.str "x")])] "x" = (none : Option Record) :=
  ⟨rfl, rfl⟩

/-- No character of the list is a dash (so `split('---')` leaves it whole). -/
def noDash (cs : List Char) : Bool :=
  cs.all (fun c => !(c = '-'))

/-- A character that is neither a line terminator nor a dash. -/
def cleanChar (c : Char) : Bool :=
  !isLineTerm c && !(c = '-')

theorem alGet_foldl_names {α : Type} (names : List String) (d : α) :
    ∀ m n, (n ∈ names ∨ alGet m n = some d) →
    alGet (names.foldl (fun acc k => alSet acc k d) m) n = some d := by
  induction names with
  | nil =>
    intro m n h
    rcases h with h | h
    · simp at h
    · exact h
  | cons a ns ih =>
    intro m n h
    simp only [List.foldl_cons]
    apply ih
    by_cases hn : n = a
    · subst hn
      right
      exact alGet_alSet_self _ _ _
    · rcases h with h | h
      · rcases List.mem_cons.mp h with h' | h'
        · exact absurd h' hn
        · left; exact h'
      · right
        rw [alGet_alSet_ne _ _ _ _ hn]
        exact h

theorem alGet_foldl_not_mem {α : Type} (names : List String) (d : α) :
    ∀ m n, n ∉ names → alGet (names.foldl (fun acc k => alSet acc k d) m) n = alGet m n := by
  induction names with
  | nil => intro m n _; rfl
  | cons a ns ih =>
    intro m n h
    simp only [List.foldl_cons]
    rw [ih _ _ (fun hx => h (by simp [hx]))]
    rw [alGet_alSet_ne _ _ _ _ (fun he => h (by simp [he]))]

theorem cleanChar_not_dash {c : Char} (h : cleanChar c = true) : ¬(c = '-') := by
  simp only [cleanChar, Bool.and_eq_true, Bool.not_eq_true'] at h
  simpa using h.2

theorem cleanChar_not_term {c : Char} (h : cleanChar c = true) : isLineTerm c = false := by
  simp only [cleanChar, Bool.and_eq_true, Bool.not_eq_true'] at h
  exact h.1

theorem mem_field_clean {c : Char} (h : c ∈ "Field".data) : cleanChar c = true := by
  have h' : c ∈ ['F', 'i', 'e', 'l', 'd'] := h
  fin_cases h' <;> decide

theorem mem_fieldname_clean {c : Char} (h : c ∈ "FieldName: ".data) : cleanChar c = true := by
  have h' : c ∈ ['F', 'i', 'e', 'l', 'd', 'N', 'a', 'm', 'e', ':', ' '] := h
  fin_cases h' <;> decide

/-- Claim C9: within one separator-delimited block all attribute lines
accumulate into one shared record: (a) on any single dash-free block, every
`FieldName` value in the block is mapped to the block's one final record, and
names outside the block's `FieldName` values (in particular, all names, when
the block has no `FieldName` line) get nothing; (b) concretely, an attribute
line placed before the `FieldName` line still ends up in the record stored
under the later name. -/
theorem claim9_shared_record :
    (∀ (cs : List Char) (d : Record) (names : List String),
      noDash cs = true → processBlock cs = .ok (d, names) →
      ∃ m, parseFields (String.mk cs) = .ok m ∧
        (∀ n ∈ names, alGet m n = some d) ∧
        (∀ n, n ∉ names → alGet m n = none)) ∧
    (∀ (k v n : List Char),
      (∀ c ∈ k, isAsciiAlpha c = true) → k ≠ [] →
      String.mk k ≠ "Name" → String.mk k ≠ "StateOption" →
      (∀ c ∈ k, cleanChar c = true) → (∀ c ∈ v, cleanChar c = true) →
      (∀ c ∈ n, cleanChar c = true) →
      parseFields (String.mk (("Field".data ++ (k ++ ':' :: ' ' :: v)) ++ '\n' :: ("FieldName: ".data ++ n))) =
        .ok [(String.mk n, [(lowerStr (String.mk k), JsVal.str (String.mk v))])]) := by
  constructor
  · intro cs d names hnd hpb
    have hsplit : splitDash [] cs = [cs] := by
      have hO : ∀ c ∈ cs, ¬(c = '-') := by
        intro c hc
        have := (List.all_eq_true.mp hnd) c hc
        simpa using this
      simpa using splitDash_of_noDash cs hO []
    refine ⟨names.foldl (fun acc n => alSet acc n d) [], ?_, ?_, ?_⟩
    · show (splitDash [] cs).foldlM blockStep [] = _
      rw [hsplit, List.foldlM_cons]
      unfold blockStep
      rw [hpb]
      simp [Bind.bind, Except.bind, Pure.pure, Except.pure]
    · intro n hn
      exact alGet_foldl_names names d [] n (Or.inl hn)
    · intro n hn
      rw [alGet_foldl_not_mem names d [] n hn]
      rfl
  · intro k v n hka hk0 hkn hks hkc hvc hnc
    have hcln1 : ∀ c ∈ "Field".data ++ (k ++ ':' :: ' ' :: v), cleanChar c = true := by
      intro c hc
      rcases List.mem_append.mp hc with h | h
      · exact mem_field_clean h
      · rcases List.mem_append.mp h with h | h
        · exact hkc c h
        · rcases List.mem_cons.mp h with h | h
          · subst h; decide
          · rcases List.mem_cons.mp h with h | h
            · subst h; decide
            · exact hvc c h
    have hcln2 : ∀ c ∈ "FieldName: ".data ++ n, cleanChar c = true := by
      intro c hc
      rcases List.mem_append.mp hc with h | h
      · exact mem_fieldname_clean h
      · exact hnc c h
    have hsd : splitDash []
        (("Field".data ++ (k ++ ':' :: ' ' :: v)) ++ '\n' :: ("FieldName: ".data ++ n)) =
        [("Field".data ++ (k ++ ':' :: ' ' :: v)) ++ '\n' :: ("FieldName: ".data ++ n)] := by
      have hO : ∀ c ∈ ("Field".data ++ (k ++ ':' :: ' ' :: v)) ++ '\n' :: ("FieldName: ".data ++ n),
          ¬(c = '-') := by
        intro c hc
        rcases List.mem_append.mp hc with h | h
        · exact cleanChar_not_dash (hcln1 c h)
        · rcases List.mem_cons.mp h with h | h
          · subst h; decide
          · exact cleanChar_not_dash (hcln2 c h)
      simpa using splitDash_of_noDash _ hO []
    have hsl : splitLines []
        (("Field".data ++ (k ++ ':' :: ' ' :: v)) ++ '\n' :: ("FieldName: ".data ++ n)) =
        ["Field".data ++ (k ++ ':' :: ' ' :: v), "FieldName: ".data ++ n] := by
      rw [splitLines_append_nl _ (fun c hc => cleanChar_not_term (hcln1 c hc)) _ []]
      rw [splitLines_of_clean _ (fun c hc => cleanChar_not_term (hcln2 c hc)) []]
      simp
    have hm1 : matchLine ("Field".data ++ (k ++ ':' :: ' ' :: v)) =
        some (String.mk k, String.mk v) :=
      matchLine_eq "Field".data k v (by decide) hka hk0
    have hm2 : matchLine ("FieldName: ".data ++ n) = some ("Name", String.mk n) := by
      have hre : "FieldName: ".data ++ n = "Field".data ++ ("Name".data ++ ':' :: ' ' :: n) := rfl
      rw [hre]
      have := matchLine_eq "Field".data "Name".data n (by decide) (by decide) (by decide)
      simpa using this
    have hstep1 : lineStep ([], []) ("Field".data ++ (k ++ ':' :: ' ' :: v)) =
        .ok ([(lowerStr (String.mk k), JsVal.str (String.mk v))], []) := by
      unfold lineStep
      rw [hm1]
      simp [hkn, hks, alSet]
    have hstep2 : lineStep ([(lowerStr (String.mk k), JsVal.str (String.mk v))], [])
        ("FieldName: ".data ++ n) =
        .ok ([(lowerStr (String.mk k), JsVal.str (String.mk v))], [String.mk n]) := by
      unfold lineStep
      rw [hm2]
      simp
    have hpb : processBlock
        (("Field".data ++ (k ++ ':' :: ' ' :: v)) ++ '\n' :: ("FieldName: ".data ++ n)) =
        .ok ([(lowerStr (String.mk k), JsVal.str (String.mk v))], [String.mk n]) := by
      unfold processBlock
      rw [hsl, List.foldlM_cons, hstep1]
      simp only [Bind.bind, Except.bind]
      rw [List.foldlM_cons, hstep2]
      simp [Bind.bind, Except.bind, Pure.pure, Except.pure]
    show (splitDash [] (("Field".data ++ (k ++ ':' :: ' ' :: v)) ++ '\n' :: ("FieldName: ".data ++ n))).foldlM blockStep [] = _
    rw [hsd, List.foldlM_cons]
    unfold blockStep
    rw [hpb]
    simp [Bind.bind, Except.bind, Pure.pure, Except.pure, alSet]

/-- Claim C9 witness: part (a) applied to a block with two `FieldName` lines
around a `FieldType` line (both names map to the same final record), and part
(b) applied to a `FieldFlags` line preceding the `FieldName` line. -/
theorem claim9_shared_record_witness :
    (∃ m, parseFields "FieldName: a\nFieldType: Text\nFieldName: b" = .ok m ∧
      (∀ n ∈ ["a", "b"], alGet m n = some [("type", JsVal.str "Text")]) ∧
      (∀ n, n ∉ ["a", "b"] → alGet m n = none)) ∧
    parseFields "FieldFlags: 0\nFieldName: z" = .ok [("z", [("flags", JsVal.str "0")])] :=
  ⟨claim9_shared_record.1 "FieldName: a\nFieldType: Text\nFieldName: b".data
      [("type", JsVal.str "Text")] ["a", "b"] (by decide) rfl,
   claim9_shared_record.2 "Flags".data "0".data "z".data (by decide) (by decide)
      (by decide) (by decide) (by decide) (by decide) (by decide)⟩

/-- The decimal digit character for `n % 10`. -/
def digitChar (n : Nat) : Char :=
  Char.ofNat (48 + n % 10)

/-- Two-digit zero-padded decimal, the `MM`/`DD`/`HH`/`mm`/`ss` fields of an
ECMAScript ISO date string (for values below 100). -/
def pad2 (n : Nat) : List Char :=
  [digitChar (n / 10), digitChar n]

/-- Three-digit zero-padded decimal, the milliseconds field. -/
def pad3 (n : Nat) : List Char :=
  [digitChar (n / 100), digitChar (n / 10), digitChar n]

/-- Four-digit zero-padded decimal, the plain year field. -/
def pad4 (n : Nat) : List Char :=
  [digitChar (n / 1000), digitChar (n / 100), digitChar (n / 10), digitChar n]

/-- Six-digit zero-padded decimal, the ECMAScript expanded-year field. -/
def pad6 (n : Nat) : List Char :=
  [digitChar (n / 100000), digitChar (n / 10000), digitChar (n / 1000),
   digitChar (n / 100), digitChar (n / 10), digitChar n]

/-- A JS `Date`, represented by the UTC calendar components that
`toISOString` displays (a JS `Date` is an epoch-milliseconds value; only its
UTC components are observable through the code under verification). -/
structure JsDate where
  year : Int
  month : Nat
  day : Nat
  hour : Nat
  minute : Nat
  second : Nat
  ms : Nat
deriving DecidableEq, Repr

/-- The year field of `toISOString`: four digits for years 0..9999, otherwise
the ECMAScript expanded-year form of a sign and six digits. -/
def yearChars (y : Int) : List Char :=
  if 0 ≤ y ∧ y ≤ 9999 then pad4 y.toNat
  else if y < 0 then '-' :: pad6 (-y).toNat
  else '+' :: pad6 y.toNat

/-- `Date.prototype.toISOString`: `YYYY-MM-DDTHH:mm:ss.sssZ`. -/
def toISOString (d : JsDate) : List Char :=
  yearChars d.year ++ '-' :: pad2 d.month ++ '-' :: pad2 d.day ++
    'T' :: pad2 d.hour ++ ':' :: pad2 d.minute ++ ':' :: pad2 d.second ++
    '.' :: pad3 d.ms ++ ['Z']

/-- The characters removed by `replace(/[-:T]/g, '')`. -/
def isSep (c : Char) : Bool :=
  c = '-' || c = ':' || c = 'T'

/-- `replace(/[-:T]/g, '')`. -/
def stripSeps (cs : List Char) : List Char :=
  cs.filter (fun c => !isSep c)

/-- `replace(/\..*/, suffix)`: replace everything from the first dot to the
end with `suffix` (the ISO string contains no line terminator, at which `.`
would otherwise stop). -/
def replaceDotRest (cs : List Char) (suffix : List Char) : List Char :=
  match cs with
  | [] => []
  | c :: rest => if c = '.' then suffix else c :: replaceDotRest rest suffix

/-- The apostrophe character, U+0027. -/
def apos : Char :=
  Char.ofNat 39

/-- The replacement text `Z00'00'` of the second `replace`. -/
def zSuffix : List Char :=
  ['Z', '0', '0', apos, '0', '0', apos]

/-- A value held in a metadata (`options.info`) record: a string, a `Date`,
or a present-but-null entry. -/
inductive InfoVal where
  | vstr (s : String)
  | vdate (d : JsDate)
  | vnull
deriving DecidableEq, Repr

/-- JS truthiness of a metadata value: `null` and the empty string are falsy,
every other string and every `Date` object is truthy. -/
def truthyIV : InfoVal → Bool
  | .vnull => false
  | .vstr s => !(s = "")
  | .vdate _ => true

/-- `pdfDate`: empty string for a falsy value, strings pass through, and a
`Date` is rendered as
`'D:' + date.toISOString().replace(/[-:T]/g, '').replace(/\..*/, "Z00'00'")`.
(For the empty string the code returns `''` at the falsy check, which is the
same value the string branch would return.) -/
def pdfDate : InfoVal → String
  | .vnull => ""
  | .vstr s => s
  | .vdate d => String.mk ('D' :: ':' :: replaceDotRest (stripSeps (toISOString d)) zSuffix)

theorem digitChar_not_sep (n : Nat) : isSep (digitChar n) = false := by
  have h : n % 10 < 10 := Nat.mod_lt _ (by decide)
  unfold digitChar
  set m := n % 10 with hm
  interval_cases m <;> decide

theorem digitChar_ne_dot (n : Nat) : ¬(digitChar n = '.') := by
  have h : n % 10 < 10 := Nat.mod_lt _ (by decide)
  unfold digitChar
  set m := n % 10 with hm
  interval_cases m <;> decide

theorem filter_pad2 (n : Nat) : (pad2 n).filter (fun c => !isSep c) = pad2 n := by
  simp [pad2, List.filter_cons, digitChar_not_sep]

theorem filter_pad3 (n : Nat) : (pad3 n).filter (fun c => !isSep c) = pad3 n := by
  simp [pad3, List.filter_cons, digitChar_not_sep]

theorem filter_pad4 (n : Nat) : (pad4 n).filter (fun c => !isSep c) = pad4 n := by
  simp [pad4, List.filter_cons, digitChar_not_sep]

theorem mem_pad2_ne_dot {c : Char} {n : Nat} (h : c ∈ pad2 n) : ¬(c = '.') := by
  simp only [pad2, List.mem_cons, List.mem_singleton, List.not_mem_nil, or_false] at h
  rcases h with h | h <;> subst h <;> exact digitChar_ne_dot _

theorem mem_pad4_ne_dot {c : Char} {n : Nat} (h : c ∈ pad4 n) : ¬(c = '.') := by
  simp only [pad4, List.mem_cons, List.mem_singleton, List.not_mem_nil, or_false] at h
  rcases h with h | h | h | h <;> subst h <;> exact digitChar_ne_dot _

theorem replaceDotRest_append (l : List Char) (h : ∀ c ∈ l, ¬(c = '.'))
    (rest suffix : List Char) :
    replaceDotRest (l ++ '.' :: rest) suffix = l ++ suffix := by
  induction l with
  | nil => simp [replaceDotRest]
  | cons c cs ih =>
    simp only [List.cons_append, replaceDotRest, h c (by simp), if_false]
    exact congrArg (fun l => c :: l) (ih (fun x hx => h x (by simp [hx])))

/-- Claim C3 (amended): a date-valued metadata field whose UTC year lies in
0..9999 is formatted as `D:YYYYMMDDHHMMSSZ00'00'` from the UTC components of
the date; any string value passes through unchanged; and a null/absent
(falsy) date value serializes as the empty string.  (Years outside 0..9999
use ECMAScript expanded-year notation instead, see the counterexample.) -/
theorem claim3_pdf_date (d : JsDate) (hy0 : 0 ≤ d.year) (hy : d.year ≤ 9999)
    (hmo1 : 1 ≤ d.month) (hmo : d.month ≤ 12) (hd1 : 1 ≤ d.day) (hd : d.day ≤ 31)
    (hh : d.hour ≤ 23) (hmi : d.minute ≤ 59) (hs : d.second ≤ 59) (hms : d.ms ≤ 999) :
    pdfDate (.vdate d) =
      String.mk ('D' :: ':' :: (pad4 d.year.toNat ++ pad2 d.month ++ pad2 d.day ++
        pad2 d.hour ++ pad2 d.minute ++ pad2 d.second ++ zSuffix)) ∧
    (∀ s, pdfDate (.vstr s) = s) ∧
    pdfDate .vnull = "" := by
  refine ⟨?_, fun s => rfl, rfl⟩
  have hyear : yearChars d.year = pad4 d.year.toNat := by
    unfold yearChars
    rw [if_pos ⟨hy0, hy⟩]
  have hstrip : stripSeps (toISOString d) =
      (pad4 d.year.toNat ++ (pad2 d.month ++ (pad2 d.day ++ (pad2 d.hour ++
        (pad2 d.minute ++ pad2 d.second))))) ++ '.' :: (pad3 d.ms ++ ['Z']) := by
    unfold stripSeps toISOString
    rw [hyear]
    have e1 : (!isSep '-') = false := by decide
    have e2 : (!isSep ':') = false := by decide
    have e3 : (!isSep 'T') = false := by decide
    have e4 : (!isSep '.') = true := by decide
    have e5 : (!isSep 'Z') = true := by decide
    simp only [List.filter_append, List.filter_cons, List.filter_nil, e1, e2, e3, e4, e5,
      if_false, if_true, filter_pad2, filter_pad3, filter_pad4, List.append_assoc]
    simp [List.append_assoc]
  have hdotfree : ∀ c ∈ pad4 d.year.toNat ++ (pad2 d.month ++ (pad2 d.day ++
      (pad2 d.hour ++ (pad2 d.minute ++ pad2 d.second)))), ¬(c = '.') := by
    intro c hc
    rcases List.mem_append.mp hc with h | h
    · exact mem_pad4_ne_dot h
    · rcases List.mem_append.mp h with h | h
      · exact mem_pad2_ne_dot h
      · rcases List.mem_append.mp h with h | h
        · exact mem_pad2_ne_dot h
        · rcases List.mem_append.mp h with h | h
          · exact mem_pad2_ne_dot h
          · rcases List.mem_append.mp h with h | h <;> exact mem_pad2_ne_dot h
  show String.mk ('D' :: ':' :: replaceDotRest (stripSeps (toISOString d)) zSuffix) = _
  rw [hstrip, replaceDotRest_append _ hdotfree _ _]
  simp [List.append_assoc]

/-- Claim C3 witness: the amended theorem applied to the concrete UTC date
2020-05-06 07:08:09.123, formatted as `D:20200506070809Z00'00'`. -/
theorem claim3_pdf_date_witness :
    pdfDate (.vdate ⟨2020, 5, 6, 7, 8, 9, 123⟩) =
      String.mk ('D' :: ':' :: (pad4 (Int.toNat 2020) ++ pad2 5 ++ pad2 6 ++
        pad2 7 ++ pad2 8 ++ pad2 9 ++ zSuffix)) ∧
    (∀ s, pdfDate (.vstr s) = s) ∧
    pdfDate .vnull = "" :=
  claim3_pdf_date ⟨2020, 5, 6, 7, 8, 9, 123⟩ (by decide) (by decide) (by decide)
    (by decide) (by decide) (by decide) (by decide) (by decide) (by decide) (by decide)

/-- Claim C3 counterexample: a structured date with UTC year 10000 is a valid
JS `Date`, but `toISOString` renders it in expanded-year notation
`+010000-...`, so the output is `D:+0100000101000000Z00'00'` — it contains a
`+` sign and a six-digit year, not the claimed `D:YYYYMMDDHHMMSSZ00'00'`
shape (for negative years the sign would even be stripped by the dash
removal). -/
theorem claim3_counterexample :
    pdfDate (.vdate ⟨10000, 1, 1, 0, 0, 0, 0⟩) =
      String.mk (['D', ':', '+', '0', '1', '0', '0', '0', '0', '0', '1', '0', '1',
        '0', '0', '0', '0', '0', '0'] ++ zSuffix) ∧
    '+' ∈ (pdfDate (.vdate ⟨10000, 1, 1, 0, 0, 0, 0⟩)).data :=
  ⟨rfl, by decide⟩

/-- A JS `Error` object, observable through its message. -/
structure JsError where
  message : String
deriving DecidableEq, Repr

/-- A raw value passed to a rejection callback before any normalization: an
`Error` instance, a plain string, or raw bytes from a stderr stream. -/
inductive RejVal where
  | err (e : JsError)
  | str (s : String)
  | bytes (s : String)
deriving DecidableEq, Repr

/-- The `_reject` wrapper of `fill`:
`if (!(err instanceof Error)) err = new Error(err.toString())`. -/
def normalize : RejVal → JsError
  | .err e => e
  | .str s => ⟨s⟩
  | .bytes s => ⟨s⟩

/-- An external effect of one operation, in order of occurrence. -/
inductive Event where
  | access (path : String)
  | spawn (cmd : String) (args : List String)
  | tmpfile
  | fsWrite (content : String)
  | stdinWrite (content : String)
  | destroyInput
  | consoleLog (s : String)
  | consoleTime (s : String)
  | consoleTimeEnd (s : String)
  | consoleError (s : String)
deriving DecidableEq, Repr

/-- How one call settles: resolved with a value, rejected with a (raw-typed)
value, left pending forever, or crashed by an uncaught exception inside a
stream callback. -/
inductive Outcome (α : Type) where
  | resolved (val : α)
  | rejected (v : RejVal)
  | pending
  | crashed (msg : String)
deriving DecidableEq, Repr

/-- The environment of one `fields` call: whether `fs.access` grants read
permission (and the error it reports otherwise), and what the spawned
process emits on stderr and stdout. -/
structure FieldsEnv where
  readable : Bool
  accessErr : JsError
  stderrData : Option String
  stdoutOutput : String
deriving Repr

/-- The `fields` operation: check readability, spawn
`pdftk <pdf> dump_data_fields_utf8`, reject with `new Error(stderr bytes)` on
any stderr data, otherwise parse the collected stdout on end.  A `TypeError`
thrown while parsing escapes the `end` listener, so the promise never
settles (modelled as `crashed`). -/
def fields (pdf : String) (env : FieldsEnv) :
    List Event × Outcome (List (String × Record)) :=
  if env.readable then
    let tr := [Event.access pdf, Event.spawn "pdftk" [pdf, "dump_data_fields_utf8"]]
    match env.stderrData with
    | some b => (tr, .rejected (.err ⟨b⟩))
    | none =>
      match parseFields env.stdoutOutput with
      | .ok m => (tr, .resolved m)
      | .error msg => (tr, .crashed msg)
  else ([Event.access pdf], .rejected (.err env.accessErr))

/-- A metadata record, the embedding of the caller's `options.info` object,
in property-insertion order. -/
abbrev Info := List (String × InfoVal)

/-- JS `Date.prototype.toString` is locale and timezone dependent; it is
modelled as the ISO string.  This branch is reached only for a `Date` stored
under a metadata key other than `ModDate`/`CreationDate`, which no claim
examines. -/
def dateDefaultString (d : JsDate) : String :=
  String.mk (toISOString d)

/-- `info[key] || ''` as interpolated into the `InfoValue` line. -/
def infoValOut : InfoVal → String
  | .vstr s => s
  | .vnull => ""
  | .vdate d => dateDefaultString d

/-- The post-state of the caller's `info` object after `pdfInfo` ran:
`if (info.ModDate) info.ModDate = pdfDate(info.ModDate)` and then the same
for `CreationDate`, both mutating the record in place. -/
def pdfInfoRecord (i : Info) : Info :=
  let i1 :=
    match alGet i "ModDate" with
    | some v => if truthyIV v then alSet i "ModDate" (.vstr (pdfDate v)) else i
    | none => i
  match alGet i1 "CreationDate" with
  | some v => if truthyIV v then alSet i1 "CreationDate" (.vstr (pdfDate v)) else i1
  | none => i1

/-- The `InfoBegin`/`InfoKey`/`InfoValue` text that `pdfInfo` reduces over
the keys of the (already mutated) record. -/
def pdfInfoText (i : Info) : String :=
  ((pdfInfoRecord i).map
    (fun p => "InfoBegin\nInfoKey: " ++ p.1 ++ "\nInfoValue: " ++ infoValOut p.2 ++ "\n")).foldl
    (fun a b => a ++ b) ""

/-- `pdfInfo`: mutates the record in place (state passing: first component)
and returns the generated text block (second component). -/
def pdfInfo (i : Info) : Info × String :=
  (pdfInfoRecord i, pdfInfoText i)

/-- Modelled from the spec: `new XFDF({ pdf })` plus `fromJSON({ fields })`
and `generate()` produce an XML interchange document associating the source
PDF with the flat field-name/value assignments.  The `xfdf` library is
external to this repository and no claim inspects the generated text, so a
simple deterministic stand-in is used. -/
def xfdfGenerate (pdf : String) (flds : List (String × String)) : String :=
  "xfdf:" ++ pdf ++ ";" ++ String.join (flds.map (fun p => p.1 ++ "=" ++ p.2 ++ ";"))

/-- The caller's `options` object. -/
structure Options where
  flatten : Option Bool
  info : Option Info
  verbose : Option Bool
deriving Repr

/-- The environment of one `fill` call: readability of the source, the
temporary-file and write results, stderr data of the two pdftk invocations,
the first/whole stdout of the fill-stage process, and the random digits used
for the verbose label. -/
structure FillEnv where
  readable : Bool
  accessErr : JsError
  tmpResult : Except JsError String
  writeResult : Except JsError Nat
  infoStderr : Option String
  fillStderr : Option String
  fillStdout : Option String
  randLabel : String
deriving Repr

/-- What one `fill` call leaves behind: its effect trace, its outcome (the
resolved value is the complete stdout contents delivered by the
first-chunk-unshift technique), and the post-state of the caller's
`options.info` record. -/
structure FillResult where
  trace : List Event
  outcome : Outcome String
  infoPost : Option Info
deriving Repr

/-- `update_info_utf8` argument list of `setInfo`. -/
def updateArgs (pdf : String) : List String :=
  [pdf, "update_info_utf8", "-", "output", "-"]

/-- `fillForm` argument list: source (or `-` for a stream), `fill_form`, the
interchange-document path, `output -`, and `flatten` pushed at the end when
the flag is set. -/
def fillFormArgs (src : String) (xfdfPath : String) (flatten : Bool) : List String :=
  [src, "fill_form", xfdfPath, "output", "-"] ++ if flatten then ["flatten"] else []

/-- Console output emitted only in verbose mode. -/
def consoleIf (b : Bool) (e : Event) : List Event :=
  if b then [e] else []

/-- Settling of the fill-stage process: stderr data rejects (raw bytes
through `_reject`), otherwise the first stdout chunk resolves with the output
stream, otherwise nothing ever settles. -/
def fillStage (verbose : Bool) (label : String) (env : FillEnv) :
    List Event × Outcome String :=
  match env.fillStderr with
  | some b => (consoleIf verbose (.consoleError label), .rejected (.err (normalize (.bytes b))))
  | none =>
    match env.fillStdout with
    | some out => (consoleIf verbose (.consoleTimeEnd label), .resolved out)
    | none => ([], .pending)

/-- The `fill` operation: verbose preamble, readability check, temporary
file, interchange-document write (zero bytes written is its own failure),
optional `setInfo` stage whose output stream becomes the fill-stage source
(`-`), then the fill stage.  Every rejection goes through `_reject`
(`normalize`); `infoPost` is the caller's `options.info` record after the
call. -/
def fill (pdf : String) (flds : List (String × String)) (opts : Options)
    (env : FillEnv) : FillResult :=
  let flatten := opts.flatten.getD true
  let verbose := opts.verbose.getD false
  let label := "fill(" ++ env.randLabel ++ ")"
  let pre := consoleIf verbose (.consoleLog label) ++ consoleIf verbose (.consoleTime label)
  let xtext := xfdfGenerate pdf flds
  if env.readable then
    match env.tmpResult with
    | .error e =>
      ⟨pre ++ [.access pdf, .tmpfile] ++ consoleIf verbose (.consoleError label),
       .rejected (.err (normalize (.err e))), opts.info⟩
    | .ok xfdfPath =>
      match env.writeResult with
      | .error e =>
        ⟨pre ++ [.access pdf, .tmpfile, .fsWrite xtext] ++ consoleIf verbose (.consoleError label),
         .rejected (.err (normalize (.err e))), opts.info⟩
      | .ok written =>
        if written = 0 then
          ⟨pre ++ [.access pdf, .tmpfile, .fsWrite xtext] ++ consoleIf verbose (.consoleError label),
           .rejected (.err (normalize (.str "xfdf wrote 0 bytes!"))), opts.info⟩
        else
          match opts.info with
          | none =>
            let st := fillStage verbose label env
            ⟨pre ++ [.access pdf, .tmpfile, .fsWrite xtext,
                .spawn "pdftk" (fillFormArgs pdf xfdfPath flatten)] ++ st.1,
             st.2, none⟩
          | some i =>
            let baseTr := pre ++ [.access pdf, .tmpfile, .fsWrite xtext,
                .spawn "pdftk" (updateArgs pdf), .stdinWrite (pdfInfo i).2,
                .spawn "pdftk" (fillFormArgs "-" xfdfPath flatten), .destroyInput]
            match env.infoStderr with
            | some b =>
              ⟨baseTr ++ consoleIf verbose (.consoleError label),
               .rejected (.err (normalize (.bytes b))), some (pdfInfo i).1⟩
            | none =>
              let st := fillStage verbose label env
              ⟨baseTr ++ st.1, st.2, some (pdfInfo i).1⟩
  else
    ⟨pre ++ [.access pdf] ++ consoleIf verbose (.consoleError label),
     .rejected (.err (normalize (.err env.accessErr))), opts.info⟩

/-- Claim C2: on an unreadable source path both operations reject with the
file-access error reported by `fs.access`, and no external process is spawned
at all (in particular the readability check precedes any spawn). -/
theorem claim2_access_before_spawn (pdf pdf2 : String) (fenv : FieldsEnv)
    (flds : List (String × String)) (opts : Options) (env : FillEnv)
    (hf : fenv.readable = false) (hl : env.readable = false) :
    (fields pdf fenv).2 = .rejected (.err fenv.accessErr) ∧
    (∀ c a, Event.spawn c a ∉ (fields pdf fenv).1) ∧
    (fill pdf2 flds opts env).outcome = .rejected (.err env.accessErr) ∧
    (∀ c a, Event.spawn c a ∉ (fill pdf2 flds opts env).trace) := by
  refine ⟨?_, ?_, ?_, ?_⟩
  · simp [fields, hf]
  · intro c a
    simp [fields, hf]
  · simp [fill, hl, normalize]
  · intro c a
    cases hv : opts.verbose.getD false <;>
      simp [fill, hl, consoleIf, hv]

/-- Claim C2 witness: both operations on a concrete unreadable environment. -/
theorem claim2_access_before_spawn_witness :
    (fields "a.pdf" ⟨false, ⟨"EACCES"⟩, none, ""⟩).2 = .rejected (.err ⟨"EACCES"⟩) ∧
    (∀ c a, Event.spawn c a ∉ (fields "a.pdf" ⟨false, ⟨"EACCES"⟩, none, ""⟩).1) ∧
    (fill "b.pdf" [] ⟨none, none, none⟩
        ⟨false, ⟨"EACCES"⟩, .ok "/tmp/x", .ok 7, none, none, none, "1"⟩).outcome =
      .rejected (.err ⟨"EACCES"⟩) ∧
    (∀ c a, Event.spawn c a ∉ (fill "b.pdf" [] ⟨none, none, none⟩
        ⟨false, ⟨"EACCES"⟩, .ok "/tmp/x", .ok 7, none, none, none, "1"⟩).trace) :=
  claim2_access_before_spawn "a.pdf" "b.pdf" ⟨false, ⟨"EACCES"⟩, none, ""⟩ []
    ⟨none, none, none⟩ ⟨false, ⟨"EACCES"⟩, .ok "/tmp/x", .ok 7, none, none, none, "1"⟩
    rfl rfl

/-- Claim C4: the flatten option defaults to true when absent; when the fill
stage is reached, the spawned fill command's argument list is
`[source-or-dash, fill_form, path, output, -]` with `flatten` appended
exactly when the effective flatten option is true; with flatten false the
list is exactly the five base arguments. -/
theorem claim4_flatten_args (pdf : String) (flds : List (String × String))
    (opts : Options) (env : FillEnv) (path : String) (w : Nat)
    (hr : env.readable = true) (ht : env.tmpResult = .ok path)
    (hw : env.writeResult = .ok w) (hw0 : ¬(w = 0)) :
    (opts.info = none →
      Event.spawn "pdftk" (fillFormArgs pdf path (opts.flatten.getD true)) ∈
        (fill pdf flds opts env).trace) ∧
    (∀ i, opts.info = some i →
      Event.spawn "pdftk" (fillFormArgs "-" path (opts.flatten.getD true)) ∈
        (fill pdf flds opts env).trace) ∧
    (opts.flatten = none → opts.flatten.getD true = true) ∧
    (∀ src xp, fillFormArgs src xp true = [src, "fill_form", xp, "output", "-", "flatten"]) ∧
    (∀ src xp, fillFormArgs src xp false = [src, "fill_form", xp, "output", "-"]) := by
  refine ⟨?_, ?_, ?_, ?_, ?_⟩
  · intro hi
    cases hfo : env.fillStderr <;> cases hfs : env.fillStdout <;>
      simp [fill, hr, ht, hw, hw0, hi, fillStage, hfo, hfs, consoleIf]
  · intro i hi
    cases his : env.infoStderr <;> cases hfo : env.fillStderr <;> cases hfs : env.fillStdout <;>
      simp [fill, hr, ht, hw, hw0, hi, fillStage, his, hfo, hfs, consoleIf]
  · intro h
    rw [h]
    rfl
  · intro src xp
    rfl
  · intro src xp
    rfl

/-- Claim C4 witness: the theorem applied on a concrete success-path
environment. -/
theorem claim4_flatten_args_witness :
    (((⟨some false, none, none⟩ : Options).info = none →
      Event.spawn "pdftk" (fillFormArgs "a.pdf" "/tmp/x" ((some false).getD true)) ∈
        (fill "a.pdf" [] ⟨some false, none, none⟩
          ⟨true, ⟨"e"⟩, .ok "/tmp/x", .ok 7, none, none, some "PDF", "1"⟩).trace) ∧
    (∀ i, (⟨some false, none, none⟩ : Options).info = some i →
      Event.spawn "pdftk" (fillFormArgs "-" "/tmp/x" ((some false).getD true)) ∈
        (fill "a.pdf" [] ⟨some false, none, none⟩
          ⟨true, ⟨"e"⟩, .ok "/tmp/x", .ok 7, none, none, some "PDF", "1"⟩).trace) ∧
    ((some false : Option Bool) = none → (some false).getD true = true) ∧
    (∀ src xp, fillFormArgs src xp true = [src, "fill_form", xp, "output", "-", "flatten"]) ∧
    (∀ src xp, fillFormArgs src xp false = [src, "fill_form", xp, "output", "-"])) :=
  claim4_flatten_args "a.pdf" [] ⟨some false, none, none⟩
    ⟨true, ⟨"e"⟩, .ok "/tmp/x", .ok 7, none, none, some "PDF", "1"⟩ "/tmp/x" 7
    rfl rfl rfl (by decide)

/-- Claim C5: when the interchange-document write succeeds but reports zero
bytes written, `fill` rejects with the serialization-integrity error
`xfdf wrote 0 bytes!`; when the write itself fails with an I/O error `e`,
`fill` rejects with `e` itself, a distinct rejection whenever `e`'s message
differs from the fixed integrity message. -/
theorem claim5_zero_byte (pdf : String) (flds : List (String × String))
    (opts : Options) (env env2 : FillEnv) (path path2 : String) (e : JsError)
    (hr : env.readable = true) (ht : env.tmpResult = .ok path)
    (hw : env.writeResult = .ok 0)
    (hr2 : env2.readable = true) (ht2 : env2.tmpResult = .ok path2)
    (hw2 : env2.writeResult = .error e) :
    (fill pdf flds opts env).outcome = .rejected (.err ⟨"xfdf wrote 0 bytes!"⟩) ∧
    (fill pdf flds opts env2).outcome = .rejected (.err e) ∧
    (e.message ≠ "xfdf wrote 0 bytes!" →
      (fill pdf flds opts env2).outcome ≠ (fill pdf flds opts env).outcome) := by
  have h1 : (fill pdf flds opts env).outcome = .rejected (.err ⟨"xfdf wrote 0 bytes!"⟩) := by
    simp [fill, hr, ht, hw, normalize]
  have h2 : (fill pdf flds opts env2).outcome = .rejected (.err e) := by
    simp [fill, hr2, ht2, hw2, normalize]
  refine ⟨h1, h2, ?_⟩
  intro hne
  rw [h1, h2]
  intro hcontra
  apply hne
  have := (Outcome.rejected.injEq _ _).mp hcontra
  have := (RejVal.err.injEq _ _).mp this
  exact congrArg JsError.message this

/-- Claim C5 witness: the theorem applied to concrete environments whose
write reports zero bytes and an `EIO` failure respectively. -/
theorem claim5_zero_byte_witness :
    (fill "a.pdf" [] ⟨none, none, none⟩
        ⟨true, ⟨"e"⟩, .ok "/tmp/x", .ok 0, none, none, some "PDF", "1"⟩).outcome =
      .rejected (.err ⟨"xfdf wrote 0 bytes!"⟩) ∧
    (fill "a.pdf" [] ⟨none, none, none⟩
        ⟨true, ⟨"e"⟩, .ok "/tmp/y", .error ⟨"EIO"⟩, none, none, some "PDF", "1"⟩).outcome =
      .rejected (.err ⟨"EIO"⟩) ∧
    ((⟨"EIO"⟩ : JsError).message ≠ "xfdf wrote 0 bytes!" →
      (fill "a.pdf" [] ⟨none, none, none⟩
          ⟨true, ⟨"e"⟩, .ok "/tmp/y", .error ⟨"EIO"⟩, none, none, some "PDF", "1"⟩).outcome ≠
        (fill "a.pdf" [] ⟨none, none, none⟩
          ⟨true, ⟨"e"⟩, .ok "/tmp/x", .ok 0, none, none, some "PDF", "1"⟩).outcome) :=
  claim5_zero_byte "a.pdf" [] ⟨none, none, none⟩
    ⟨true, ⟨"e"⟩, .ok "/tmp/x", .ok 0, none, none, some "PDF", "1"⟩
    ⟨true, ⟨"e"⟩, .ok "/tmp/y", .error ⟨"EIO"⟩, none, none, some "PDF", "1"⟩
    "/tmp/x" "/tmp/y" ⟨"EIO"⟩ rfl rfl rfl rfl rfl rfl

/-- A settled outcome whose rejection payload, if any, is a proper `Error`
value rather than a raw string or raw stderr bytes. -/
def rejNormalized {α : Type} : Outcome α → Bool
  | .rejected (.str _) => false
  | .rejected (.bytes _) => false
  | _ => true

/-- Claim C6: every rejection of `fill` goes through `_reject`, which wraps a
non-`Error` raw value (the plain zero-byte-write string, raw stderr bytes)
into an `Error` carrying its string form, so `fill` only ever rejects with an
`Error`; `normalize` preserves the string form of the wrapped value. -/
theorem claim6_reject_normalized (pdf : String) (flds : List (String × String))
    (opts : Options) (env : FillEnv) :
    rejNormalized (fill pdf flds opts env).outcome = true ∧
    (∀ s, normalize (.str s) = ⟨s⟩) ∧
    (∀ b, normalize (.bytes b) = ⟨b⟩) := by
  refine ⟨?_, fun s => rfl, fun b => rfl⟩
  have hst : rejNormalized (fillStage (opts.verbose.getD false)
      ("fill(" ++ env.randLabel ++ ")") env).2 = true := by
    rcases h1 : env.fillStderr with _ | b
    · rcases h2 : env.fillStdout with _ | o <;>
        simp [fillStage, h1, h2, rejNormalized]
    · simp [fillStage, h1, rejNormalized]
  cases hr : env.readable
  · simp [fill, hr, rejNormalized]
  · rcases ht : env.tmpResult with e | path
    · simp [fill, hr, ht, rejNormalized]
    · rcases hw : env.writeResult with e | w
      · simp [fill, hr, ht, hw, rejNormalized]
      · by_cases hz : w = 0
        · simp [fill, hr, ht, hw, hz, rejNormalized]
        · rcases hi : opts.info with _ | i
          · simpa [fill, hr, ht, hw, hz, hi] using hst
          · rcases his : env.infoStderr with _ | b
            · simpa [fill, hr, ht, hw, hz, hi, his] using hst
            · simp [fill, hr, ht, hw, hz, hi, his, rejNormalized]

/-- Only observability: console events. -/
def isConsoleEv : Event → Bool
  | .consoleLog _ => true
  | .consoleTime _ => true
  | .consoleTimeEnd _ => true
  | .consoleError _ => true
  | _ => false

/-- Claim C8: for every source path, field mapping, flatten/info options and
environment, running `fill` with `verbose: true` and with `verbose: false`
yields the same outcome (resolved stream contents or rejection error), the
same post-state of the caller's info record, and the same trace of
non-console effects; the verbose flag only adds console output. -/
theorem claim8_verbose_noninterference (pdf : String) (flds : List (String × String))
    (fl : Option Bool) (inf : Option Info) (env : FillEnv) :
    (fill pdf flds ⟨fl, inf, some true⟩ env).outcome =
      (fill pdf flds ⟨fl, inf, some false⟩ env).outcome ∧
    (fill pdf flds ⟨fl, inf, some true⟩ env).infoPost =
      (fill pdf flds ⟨fl, inf, some false⟩ env).infoPost ∧
    (fill pdf flds ⟨fl, inf, some true⟩ env).trace.filter (fun e => !isConsoleEv e) =
      (fill pdf flds ⟨fl, inf, some false⟩ env).trace.filter (fun e => !isConsoleEv e) := by
  cases hr : env.readable
  · simp [fill, hr, consoleIf, isConsoleEv, List.filter_append, List.filter_cons]
  · rcases ht : env.tmpResult with e | path
    · simp [fill, hr, ht, consoleIf, isConsoleEv, List.filter_append, List.filter_cons]
    · rcases hw : env.writeResult with e | w
      · simp [fill, hr, ht, hw, consoleIf, isConsoleEv, List.filter_append, List.filter_cons]
      · by_cases hz : w = 0
        · simp [fill, hr, ht, hw, hz, consoleIf, isConsoleEv, List.filter_append,
            List.filter_cons]
        · rcases inf with _ | i
          · rcases hfe : env.fillStderr with _ | b
            · rcases hfo : env.fillStdout with _ | o <;>
                simp [fill, fillStage, hr, ht, hw, hz, hfe, hfo, consoleIf, isConsoleEv,
                  List.filter_append, List.filter_cons]
            · simp [fill, fillStage, hr, ht, hw, hz, hfe, consoleIf, isConsoleEv,
                List.filter_append, List.filter_cons]
          · rcases his : env.infoStderr with _ | b
            · rcases hfe : env.fillStderr with _ | b2
              · rcases hfo : env.fillStdout with _ | o <;>
                  simp [fill, fillStage, hr, ht, hw, hz, his, hfe, hfo, consoleIf, isConsoleEv,
                    List.filter_append, List.filter_cons]
              · simp [fill, fillStage, hr, ht, hw, hz, his, hfe, consoleIf, isConsoleEv,
                  List.filter_append, List.filter_cons]
            · simp [fill, fillStage, hr, ht, hw, hz, his, consoleIf, isConsoleEv,
                List.filter_append, List.filter_cons]

theorem pdfInfoRecord_get_mod (i : Info) :
    alGet (pdfInfoRecord i) "ModDate" =
      (match alGet i "ModDate" with
       | some v => if truthyIV v then some (InfoVal.vstr (pdfDate v)) else some v
       | none => none) := by
  have hne : ("ModDate" : String) ≠ "CreationDate" := by decide
  unfold pdfInfoRecord
  rcases hM : alGet i "ModDate" with _ | v
  · rcases hC : alGet i "CreationDate" with _ | w
    · simp [hM, hC]
    · cases htw : truthyIV w <;>
        simp [hM, hC, htw, alGet_alSet_ne _ _ _ _ hne]
  · cases htv : truthyIV v
    · rcases hC : alGet i "CreationDate" with _ | w
      · simp [hM, htv, hC]
      · cases htw : truthyIV w <;>
          simp [hM, htv, hC, htw, alGet_alSet_ne _ _ _ _ hne]
    · rcases hC : alGet (alSet i "ModDate" (.vstr (pdfDate v))) "CreationDate" with _ | w
      · simp [hM, htv, hC, alGet_alSet_self]
      · cases htw : truthyIV w <;>
          simp [hM, htv, hC, htw, alGet_alSet_ne _ _ _ _ hne, alGet_alSet_self]

theorem pdfInfoRecord_get_creation (i : Info) :
    alGet (pdfInfoRecord i) "CreationDate" =
      (match alGet i "CreationDate" with
       | some v => if truthyIV v then some (InfoVal.vstr (pdfDate v)) else some v
       | none => none) := by
  have hne : ("CreationDate" : String) ≠ "ModDate" := by decide
  unfold pdfInfoRecord
  rcases hM : alGet i "ModDate" with _ | v
  · rcases hC : alGet i "CreationDate" with _ | w
    · simp [hM, hC]
    · cases htw : truthyIV w <;> simp [hM, hC, htw, alGet_alSet_self]
  · cases htv : truthyIV v
    · rcases hC : alGet i "CreationDate" with _ | w
      · simp [hM, htv, hC]
      · cases htw : truthyIV w <;> simp [hM, htv, hC, htw, alGet_alSet_self]
    · have hC1 : alGet (alSet i "ModDate" (.vstr (pdfDate v))) "CreationDate" =
          alGet i "CreationDate" := alGet_alSet_ne _ _ _ _ hne
      rcases hC : alGet i "CreationDate" with _ | w
      · simp [hM, htv, hC1, hC]
      · cases htw : truthyIV w <;> simp [hM, htv, hC1, hC, htw, alGet_alSet_self]

theorem pdfInfoRecord_get_other (i : Info) (k : String) (h1 : k ≠ "ModDate")
    (h2 : k ≠ "CreationDate") :
    alGet (pdfInfoRecord i) k = alGet i k := by
  unfold pdfInfoRecord
  rcases hM : alGet i "ModDate" with _ | v
  · rcases hC : alGet i "CreationDate" with _ | w
    · simp [hM, hC]
    · cases htw : truthyIV w <;> simp [hM, hC, htw, alGet_alSet_ne _ _ _ _ h2]
  · cases htv : truthyIV v
    · rcases hC : alGet i "CreationDate" with _ | w
      · simp [hM, htv, hC]
      · cases htw : truthyIV w <;> simp [hM, htv, hC, htw, alGet_alSet_ne _ _ _ _ h2]
    · rcases hC : alGet (alSet i "ModDate" (.vstr (pdfDate v))) "CreationDate" with _ | w
      · simp [hM, htv, hC, alGet_alSet_ne _ _ _ _ h1]
      · cases htw : truthyIV w <;>
          simp [hM, htv, hC, htw, alGet_alSet_ne _ _ _ _ h1, alGet_alSet_ne _ _ _ _ h2]

/-- Claim C10 (amended): when `fill` is called with a metadata record and
reaches the metadata stage (readable source, temporary file created, and a
non-zero write), the caller's `options.info` record is mutated in place —
after the call it equals `pdfInfoRecord i`: a `ModDate`/`CreationDate`
property holding a truthy value (a date, or a non-empty string) is
overwritten with its formatted string form, a present falsy value (null or
the empty string) is left exactly as it was, an absent property stays
absent, and every other key is untouched. -/
theorem claim10_info_mutation (pdf : String) (flds : List (String × String))
    (opts : Options) (env : FillEnv) (i : Info) (path : String) (w : Nat)
    (hi : opts.info = some i) (hr : env.readable = true)
    (ht : env.tmpResult = .ok path) (hw : env.writeResult = .ok w)
    (hw0 : ¬(w = 0)) :
    (fill pdf flds opts env).infoPost = some (pdfInfoRecord i) ∧
    (∀ v, alGet i "ModDate" = some v →
      alGet (pdfInfoRecord i) "ModDate" =
        some (if truthyIV v then .vstr (pdfDate v) else v)) ∧
    (∀ v, alGet i "CreationDate" = some v →
      alGet (pdfInfoRecord i) "CreationDate" =
        some (if truthyIV v then .vstr (pdfDate v) else v)) ∧
    (alGet i "ModDate" = none → alGet (pdfInfoRecord i) "ModDate" = none) ∧
    (alGet i "CreationDate" = none → alGet (pdfInfoRecord i) "CreationDate" = none) ∧
    (∀ k, k ≠ "ModDate" → k ≠ "CreationDate" →
      alGet (pdfInfoRecord i) k = alGet i k) := by
  refine ⟨?_, ?_, ?_, ?_, ?_, pdfInfoRecord_get_other i⟩
  · cases his : env.infoStderr <;> cases hfo : env.fillStderr <;> cases hfs : env.fillStdout <;>
      simp [fill, hr, ht, hw, hw0, hi, fillStage, his, hfo, hfs, pdfInfo]
  · intro v hv
    rw [pdfInfoRecord_get_mod, hv]
    cases htv : truthyIV v <;> simp [htv]
  · intro v hv
    rw [pdfInfoRecord_get_creation, hv]
    cases htv : truthyIV v <;> simp [htv]
  · intro hv
    rw [pdfInfoRecord_get_mod, hv]
  · intro hv
    rw [pdfInfoRecord_get_creation, hv]

/-- Claim C10 witness: the amended theorem applied to a concrete call whose
info record holds a date-valued `ModDate`. -/
theorem claim10_info_mutation_witness :
    (fill "a.pdf" [] ⟨none, some [("ModDate", InfoVal.vdate ⟨2020, 5, 6, 7, 8, 9, 123⟩)], none⟩
        ⟨true, ⟨"e"⟩, .ok "/tmp/x", .ok 7, none, none, some "PDF", "1"⟩).infoPost =
      some (pdfInfoRecord [("ModDate", InfoVal.vdate ⟨2020, 5, 6, 7, 8, 9, 123⟩)]) ∧
    (∀ v, alGet [("ModDate", InfoVal.vdate ⟨2020, 5, 6, 7, 8, 9, 123⟩)] "ModDate" = some v →
      alGet (pdfInfoRecord [("ModDate", InfoVal.vdate ⟨2020, 5, 6, 7, 8, 9, 123⟩)]) "ModDate" =
        some (if truthyIV v then .vstr (pdfDate v) else v)) ∧
    (∀ v, alGet [("ModDate", InfoVal.vdate ⟨2020, 5, 6, 7, 8, 9, 123⟩)] "CreationDate" = some v →
      alGet (pdfInfoRecord [("ModDate", InfoVal.vdate ⟨2020, 5, 6, 7, 8, 9, 123⟩)]) "CreationDate" =
        some (if truthyIV v then .vstr (pdfDate v) else v)) ∧
    (alGet [("ModDate", InfoVal.vdate ⟨2020, 5, 6, 7, 8, 9, 123⟩)] "ModDate" = none →
      alGet (pdfInfoRecord [("ModDate", InfoVal.vdate ⟨2020, 5, 6, 7, 8, 9, 123⟩)]) "ModDate" = none) ∧
    (alGet [("ModDate", InfoVal.vdate ⟨2020, 5, 6, 7, 8, 9, 123⟩)] "CreationDate" = none →
      alGet (pdfInfoRecord [("ModDate", InfoVal.vdate ⟨2020, 5, 6, 7, 8, 9, 123⟩)]) "CreationDate" = none) ∧
    (∀ k, k ≠ "ModDate" → k ≠ "CreationDate" →
      alGet (pdfInfoRecord [("ModDate", InfoVal.vdate ⟨2020, 5, 6, 7, 8, 9, 123⟩)]) k =
        alGet [("ModDate", InfoVal.vdate ⟨2020, 5, 6, 7, 8, 9, 123⟩)] k) :=
  claim10_info_mutation "a.pdf" [] _ _ [("ModDate", InfoVal.vdate ⟨2020, 5, 6, 7, 8, 9, 123⟩)]
    "/tmp/x" 7 rfl rfl rfl rfl (by decide)

/-- Claim C10 counterexample: the claim as stated says a present `ModDate`
property is overwritten with its formatted string form.  With
`info = { ModDate: null }` the guard `if (info.ModDate)` is falsy, so after a
successful call the caller's record still holds `null` — not the formatted
string form `''` of that value — and the record is in fact left untouched. -/
theorem claim10_counterexample :
    (fill "a.pdf" [] ⟨none, some [("ModDate", InfoVal.vnull)], none⟩
        ⟨true, ⟨"e"⟩, .ok "/tmp/x", .ok 7, none, none, some "PDF", "1"⟩).infoPost =
      some [("ModDate", InfoVal.vnull)] ∧
    pdfDate InfoVal.vnull = "" ∧
    InfoVal.vnull ≠ InfoVal.vstr "" :=
  ⟨rfl, rfl, by decide⟩

end PdfFormFill
